import Mathlib

/-!
# Verification of the pulp_rpm sync/publish engine specification

A shallow embedding of the RPM repository sync/publish engine described by
`spec.md` of the pulp_rpm plugin.  The repository's visible source consists of
the functional test-suite (`test_publish.py`) and a schema migration
(`0004_add_metadata_signing_service_fk.py`); the engine itself (metadata
parsers, content reconciler, sync pipeline, metadata generator, publish
pipeline) is not among the shown files, so those components are modelled from
the specification text, faithful to its words, and the claims are settled
against the model.  The migration-backed repository schema (nullable
`metadata_signing_service` foreign key with `SET_NULL` delete behaviour) is
translated directly from the migration source.
-/

namespace PulpRpm

/-! ## Data model (spec §3) -/

/-- Modelled from the spec: a changelog entry carried by a Package and emitted
into `other.xml` (spec §4.1, §4.4). -/
structure Changelog where
  author : String
  date : String
  text : String
deriving DecidableEq

/-- Modelled from the spec: the Package content variant (spec §3), natural key
`name+epoch+version+release+arch+checksum-type+checksum`, plus the fields the
primary/filelists/other metadata files carry (spec §4.1, §4.4).  Scalar fields
that the generator must reproduce verbatim from upstream (sizes, dates) are
kept as opaque strings. -/
structure Package where
  name : String
  epoch : String
  ver : String
  rel : String
  arch : String
  checksumType : String
  checksum : String
  location : String
  sizePackage : String
  sizeInstalled : String
  sizeArchive : String
  files : List String
  changelogs : List Changelog
deriving DecidableEq

/-- Modelled from the spec: a reference entry of an advisory in
`updateinfo.xml` (spec §4.1, §4.4). -/
structure AdvisoryRef where
  href : String
  refId : String
  refType : String
  title : String
deriving DecidableEq

/-- Modelled from the spec: one package entry of an advisory's pkglist; the
`sum` checksum tag is optional (spec §4.1: "absent `<sum>` in updateinfo",
§4.4: documented option to omit it). -/
structure AdvisoryPkg where
  name : String
  epoch : String
  ver : String
  rel : String
  arch : String
  filename : String
  sum : Option (String × String)
deriving DecidableEq

/-- Modelled from the spec: the Advisory (Errata) content variant (spec §3),
natural key its id. -/
structure Advisory where
  id : String
  updated : String
  title : String
  description : String
  refs : List AdvisoryRef
  pkgs : List AdvisoryPkg
deriving DecidableEq

/-- Modelled from the spec: the PackageGroup content variant feeding
`comps.xml` (spec §3, §4.4). -/
structure PackageGroup where
  id : String
  name : String
  description : String
  packageNames : List String
deriving DecidableEq

/-- Modelled from the spec: the Modulemd content variant feeding
`modules.yaml` (spec §3, §4.4). -/
structure Modulemd where
  name : String
  stream : String
  version : String
  context : String
  arch : String
deriving DecidableEq

/-- Modelled from the spec: ContentUnit as a tagged union of the content
variants, with a common natural-key accessor (spec §3, §9). -/
inductive ContentUnit where
  | package : Package → ContentUnit
  | advisory : Advisory → ContentUnit
  | group : PackageGroup → ContentUnit
  | modulemd : Modulemd → ContentUnit
deriving DecidableEq

/-- Natural-key tuples are modelled as a (variant tag, key string) pair. -/
abbrev NKey := String × String

/-- The string part of a Package's natural key: the tuple
name+epoch+version+release+arch+checksum-type+checksum (spec §3), joined. -/
def pkgSortKey (p : Package) : String :=
  p.name ++ "|" ++ p.epoch ++ "|" ++ p.ver ++ "|" ++ p.rel ++ "|" ++ p.arch
    ++ "|" ++ p.checksumType ++ "|" ++ p.checksum

/-- The string part of a Modulemd's natural key (NSVCA). -/
def mdSortKey (m : Modulemd) : String :=
  m.name ++ "|" ++ m.stream ++ "|" ++ m.version ++ "|" ++ m.context ++ "|" ++ m.arch

/-- Modelled from the spec: the natural key of a content unit, "the tuple of
fields that uniquely identifies a content unit regardless of which repository
discovered it" (spec glossary, §3). -/
def naturalKey : ContentUnit → NKey
  | .package p => ("rpm.package", pkgSortKey p)
  | .advisory a => ("rpm.advisory", a.id)
  | .group g => ("rpm.packagegroup", g.id)
  | .modulemd m => ("rpm.modulemd", mdSortKey m)

def asPackage : ContentUnit → Option Package
  | .package p => some p
  | _ => none

def asAdvisory : ContentUnit → Option Advisory
  | .advisory a => some a
  | _ => none

def asGroup : ContentUnit → Option PackageGroup
  | .group g => some g
  | _ => none

def asModulemd : ContentUnit → Option Modulemd
  | .modulemd m => some m
  | _ => none

/-! ## XML documents

Generated metadata files are XML documents; they are embedded as element
trees, rendered to byte strings for publication output. -/

/-- An XML node: an element with a tag, attributes and children, or text. -/
inductive Xml where
  | text : String → Xml
  | elem : String → List (String × String) → List Xml → Xml

/-- XML-escape one character. -/
def escapeChar : Char → String
  | '<' => "&lt;"
  | '>' => "&gt;"
  | '&' => "&amp;"
  | '"' => "&quot;"
  | c => String.singleton c

/-- XML-escape a string. -/
def escape (s : String) : String :=
  s.foldl (fun acc c => acc ++ escapeChar c) ""

/-- Render an attribute list. -/
def renderAttrs : List (String × String) → String
  | [] => ""
  | (k, v) :: rest => " " ++ k ++ "=\"" ++ escape v ++ "\"" ++ renderAttrs rest

mutual

/-- Render an XML tree to its byte string. -/
def render : Xml → String
  | .text s => escape s
  | .elem t attrs cs => "<" ++ t ++ renderAttrs attrs ++ ">" ++ renderList cs ++ "</" ++ t ++ ">"

/-- Render a list of XML trees. -/
def renderList : List Xml → String
  | [] => ""
  | c :: cs => render c ++ renderList cs

end

mutual

/-- All element tags occurring anywhere in an XML tree (the set the
no-checksum-tag test scans, spec §8). -/
def allTags : Xml → List String
  | .text _ => []
  | .elem t _ cs => t :: allTagsList cs

/-- All element tags occurring in a list of XML trees. -/
def allTagsList : List Xml → List String
  | [] => []
  | c :: cs => allTags c ++ allTagsList cs

end

/-! ## Metadata Generator (spec §4.4) -/

/-- The accumulator loop of the modelled digest. -/
def checksumAux (a : Nat) : List Char → Nat
  | [] => a
  | c :: cs => checksumAux ((a * 33 + c.toNat) % 1000000007) cs

/-- Modelled from the spec: the configurable digest of generated files
(spec §4.4, default sha256); embedded as a deterministic string digest. -/
def checksum (s : String) : String :=
  toString (checksumAux 5381 s.data)

/-- Sort a list by a string key: the deterministic "stable sort by natural
key" the generator applies inside each file (spec §4.4). -/
def sortBy (key : α → String) (l : List α) : List α :=
  l.insertionSort (fun a b => key a ≤ key b)

/-- Modelled from the spec: a package entry of `primary.xml` (spec §4.4:
package list with size/checksum/dependency metadata). -/
def genPkgPrimary (p : Package) : Xml :=
  .elem "package" [("type", "rpm")]
    [ .elem "name" [] [.text p.name]
    , .elem "arch" [] [.text p.arch]
    , .elem "version" [("epoch", p.epoch), ("ver", p.ver), ("rel", p.rel)] []
    , .elem "checksum" [("type", p.checksumType), ("pkgid", "YES")] [.text p.checksum]
    , .elem "size" [("package", p.sizePackage), ("installed", p.sizeInstalled), ("archive", p.sizeArchive)] []
    , .elem "location" [("href", p.location)] [] ]

/-- Modelled from the spec: `primary.xml` for a sorted package list. -/
def genPrimary (pkgs : List Package) : Xml :=
  .elem "metadata" [("xmlns", "http://linux.duke.edu/metadata/common"), ("packages", toString pkgs.length)]
    (pkgs.map genPkgPrimary)

/-- Modelled from the spec: a package entry of `filelists.xml`, correlated to
primary by (name, epoch, version, release, arch) + checksum pkgid (spec §4.1). -/
def genPkgFilelists (p : Package) : Xml :=
  .elem "package" [("pkgid", p.checksum), ("name", p.name), ("arch", p.arch)]
    (.elem "version" [("epoch", p.epoch), ("ver", p.ver), ("rel", p.rel)] []
      :: p.files.map (fun f => .elem "file" [] [.text f]))

/-- Modelled from the spec: `filelists.xml` for a sorted package list. -/
def genFilelists (pkgs : List Package) : Xml :=
  .elem "filelists" [("xmlns", "http://linux.duke.edu/metadata/filelists"), ("packages", toString pkgs.length)]
    (pkgs.map genPkgFilelists)

/-- Modelled from the spec: one changelog element of `other.xml`. -/
def genChangelog (c : Changelog) : Xml :=
  .elem "changelog" [("author", c.author), ("date", c.date)] [.text c.text]

/-- Modelled from the spec: a package entry of `other.xml` (changelogs). -/
def genPkgOther (p : Package) : Xml :=
  .elem "package" [("pkgid", p.checksum), ("name", p.name), ("arch", p.arch)]
    (.elem "version" [("epoch", p.epoch), ("ver", p.ver), ("rel", p.rel)] []
      :: p.changelogs.map genChangelog)

/-- Modelled from the spec: `other.xml` for a sorted package list. -/
def genOther (pkgs : List Package) : Xml :=
  .elem "otherdata" [("xmlns", "http://linux.duke.edu/metadata/other"), ("packages", toString pkgs.length)]
    (pkgs.map genPkgOther)

/-- Modelled from the spec: one advisory reference of `updateinfo.xml`. -/
def genRef (r : AdvisoryRef) : Xml :=
  .elem "reference" [("href", r.href), ("id", r.refId), ("type", r.refType), ("title", r.title)] []

/-- Modelled from the spec: one pkglist package of `updateinfo.xml`; when
`omitSum` is set the deprecated `sum` checksum tag is stripped (spec §4.4:
documented option to omit the deprecated `sum` checksum tag). -/
def genAdvisoryPkg (omitSum : Bool) (ap : AdvisoryPkg) : Xml :=
  .elem "package"
    [("name", ap.name), ("epoch", ap.epoch), ("version", ap.ver), ("release", ap.rel), ("arch", ap.arch)]
    (.elem "filename" [] [.text ap.filename]
      :: (if omitSum then []
          else match ap.sum with
            | some st => [.elem "sum" [("type", st.1)] [.text st.2]]
            | none => []))

/-- Modelled from the spec: one `update` element of `updateinfo.xml`,
restoring the reference/checksum structure verbatim aside from
explicitly-stripped fields (spec §4.4). -/
def genAdvisory (omitSum : Bool) (a : Advisory) : Xml :=
  .elem "update" [("type", "security"), ("status", "stable"), ("version", "1")]
    [ .elem "id" [] [.text a.id]
    , .elem "title" [] [.text a.title]
    , .elem "updated" [("date", a.updated)] []
    , .elem "description" [] [.text a.description]
    , .elem "references" [] (a.refs.map genRef)
    , .elem "pkglist" [] [.elem "collection" [("short", "collection")] (a.pkgs.map (genAdvisoryPkg omitSum))] ]

/-- Modelled from the spec: `updateinfo.xml` for a sorted advisory list. -/
def genUpdateinfo (omitSum : Bool) (advs : List Advisory) : Xml :=
  .elem "updates" [] (advs.map (genAdvisory omitSum))

/-- Modelled from the spec: one `group` element of `comps.xml`. -/
def genGroup (g : PackageGroup) : Xml :=
  .elem "group" []
    [ .elem "id" [] [.text g.id]
    , .elem "name" [] [.text g.name]
    , .elem "description" [] [.text g.description]
    , .elem "packagelist" [] (g.packageNames.map (fun n => .elem "packagereq" [] [.text n])) ]

/-- Modelled from the spec: `comps.xml` for a sorted group list. -/
def genComps (grps : List PackageGroup) : Xml :=
  .elem "comps" [] (grps.map genGroup)

/-- Modelled from the spec: the `modules.yaml` document, one record per
module stream (spec §4.4). -/
def genModulesYaml (mods : List Modulemd) : String :=
  String.join (mods.map (fun m =>
    "---\ndocument: modulemd\nname: " ++ m.name ++ "\nstream: " ++ m.stream
      ++ "\nversion: " ++ m.version ++ "\ncontext: " ++ m.context
      ++ "\narch: " ++ m.arch ++ "\n...\n"))

/-- Modelled from the spec: generator configuration — the documented option to
omit the deprecated `sum` checksum tag in updateinfo (spec §4.4, §9), and the
publication timestamp written into `repomd.xml`. -/
structure GenConfig where
  omitSumTag : Bool
  timestamp : String
deriving DecidableEq

/-- Modelled from the spec: the `repomd.xml` `data` entry for one generated
file: type, checksum, location, timestamp and size (spec §6). -/
def genRepomdData (ts : String) (file : String × String) : Xml :=
  .elem "data" [("type", file.1)]
    [ .elem "checksum" [("type", "sha256")] [.text (checksum file.2)]
    , .elem "location" [("href", "repodata/" ++ file.1 ++ ".xml")] []
    , .elem "timestamp" [] [.text ts]
    , .elem "size" [] [.text (toString file.2.length)]
    , .elem "open-size" [] [.text (toString file.2.length)] ]

/-- Modelled from the spec: `repomd.xml` listing every generated file's type,
checksum, size and timestamp (spec §4.4, §6). -/
def genRepomd (ts : String) (files : List (String × String)) : Xml :=
  .elem "repomd" [("xmlns", "http://linux.duke.edu/metadata/repo")]
    (files.map (genRepomdData ts))

/-- The sorted package list the generator derives from a content set. -/
def sortedPackages (units : List ContentUnit) : List Package :=
  sortBy pkgSortKey (units.filterMap asPackage)

/-- The sorted advisory list the generator derives from a content set. -/
def sortedAdvisories (units : List ContentUnit) : List Advisory :=
  sortBy Advisory.id (units.filterMap asAdvisory)

/-- The sorted group list the generator derives from a content set. -/
def sortedGroups (units : List ContentUnit) : List PackageGroup :=
  sortBy PackageGroup.id (units.filterMap asGroup)

/-- The sorted module list the generator derives from a content set. -/
def sortedModules (units : List ContentUnit) : List Modulemd :=
  sortBy mdSortKey (units.filterMap asModulemd)

/-- The `updateinfo.xml` document generated for a content set. -/
def updateinfoXml (cfg : GenConfig) (units : List ContentUnit) : Xml :=
  genUpdateinfo cfg.omitSumTag (sortedAdvisories units)

/-- Modelled from the spec: the Metadata Generator,
`generate(repository_version) → set of (filename, bytes)` (spec §4.4): emits
primary/filelists/other/updateinfo/comps/modules with deterministic ordering
(stable sort by natural key), then `repomd.xml` listing every generated file. -/
def generate (cfg : GenConfig) (units : List ContentUnit) : List (String × String) :=
  let pkgs := sortedPackages units
  let files : List (String × String) :=
    [ ("primary", render (genPrimary pkgs))
    , ("filelists", render (genFilelists pkgs))
    , ("other", render (genOther pkgs))
    , ("updateinfo", render (updateinfoXml cfg units))
    , ("comps", render (genComps (sortedGroups units)))
    , ("modules", genModulesYaml (sortedModules units)) ]
  files ++ [("repomd", render (genRepomd cfg.timestamp files))]

/-! ## Metadata Parsers (spec §4.1)

Modelled from the spec: stateless decoders for the generated documents, each
producing typed records; unknown elements are skipped, not errors; lookup is
tag-directed, not position-directed. -/

/-- The tag of an XML node (text nodes have no tag). -/
def Xml.tag : Xml → String
  | .text _ => ""
  | .elem t _ _ => t

/-- The first child element carrying a given tag; other elements are skipped
(spec §4.1: unknown elements are skipped, not errors). -/
def findChild (t : String) : List Xml → Option Xml
  | [] => none
  | c :: cs => if c.tag = t then some c else findChild t cs

/-- The text content of an element wrapping a single text node. -/
def elemText : Xml → Option String
  | .elem _ _ [.text s] => some s
  | _ => none

/-- The text content of the child element with the given tag. -/
def childText (t : String) (cs : List Xml) : Option String :=
  (findChild t cs).bind elemText

/-- Look up an attribute value by name. -/
def attrOf (k : String) : List (String × String) → Option String
  | [] => none
  | (k', v) :: rest => if k' = k then some v else attrOf k rest

/-- An attribute of the child element with the given tag. -/
def childAttr (t a : String) (cs : List Xml) : Option String :=
  match findChild t cs with
  | some (.elem _ attrs _) => attrOf a attrs
  | _ => none

/-- Fallible traversal of a record list (a parse failure on a required field
fails the whole file, spec §4.1). -/
def optionMapM (f : α → Option β) : List α → Option (List β)
  | [] => some []
  | a :: as => do
      let b ← f a
      let bs ← optionMapM f as
      pure (b :: bs)

/-- The fields of one `primary.xml` package record. -/
structure PrimaryRecord where
  name : String
  epoch : String
  ver : String
  rel : String
  arch : String
  checksumType : String
  checksum : String
  location : String
  sizePackage : String
  sizeInstalled : String
  sizeArchive : String
deriving DecidableEq

/-- The primary.xml view of a Package's data. -/
def primaryRecordOf (p : Package) : PrimaryRecord :=
  ⟨p.name, p.epoch, p.ver, p.rel, p.arch, p.checksumType, p.checksum,
    p.location, p.sizePackage, p.sizeInstalled, p.sizeArchive⟩

/-- Modelled from the spec: decode one `primary.xml` package record. -/
def parsePkgPrimary : Xml → Option PrimaryRecord
  | .elem "package" _ cs => do
      let name ← childText "name" cs
      let arch ← childText "arch" cs
      let epoch ← childAttr "version" "epoch" cs
      let ver ← childAttr "version" "ver" cs
      let rel ← childAttr "version" "rel" cs
      let ctype ← childAttr "checksum" "type" cs
      let csum ← childText "checksum" cs
      let sp ← childAttr "size" "package" cs
      let si ← childAttr "size" "installed" cs
      let sa ← childAttr "size" "archive" cs
      let loc ← childAttr "location" "href" cs
      pure ⟨name, epoch, ver, rel, arch, ctype, csum, loc, sp, si, sa⟩
  | _ => none

/-- Modelled from the spec: decode `primary.xml` into its record sequence. -/
def parsePrimary : Xml → Option (List PrimaryRecord)
  | .elem "metadata" _ cs => optionMapM parsePkgPrimary cs
  | _ => none

/-- The fields of one `filelists.xml` package record, correlated to primary by
(name, epoch, version, release, arch) + checksum pkgid (spec §4.1). -/
structure FilelistsRecord where
  pkgid : String
  name : String
  arch : String
  epoch : String
  ver : String
  rel : String
  files : List String
deriving DecidableEq

/-- The filelists.xml view of a Package's data. -/
def filelistsRecordOf (p : Package) : FilelistsRecord :=
  ⟨p.checksum, p.name, p.arch, p.epoch, p.ver, p.rel, p.files⟩

/-- The text of every `file` child element, other elements skipped. -/
def fileTexts (cs : List Xml) : List String :=
  cs.filterMap (fun c => match c with
    | .elem "file" _ [.text s] => some s
    | _ => none)

/-- Modelled from the spec: decode one `filelists.xml` package record. -/
def parsePkgFilelists : Xml → Option FilelistsRecord
  | .elem "package" attrs cs => do
      let pkgid ← attrOf "pkgid" attrs
      let name ← attrOf "name" attrs
      let arch ← attrOf "arch" attrs
      let epoch ← childAttr "version" "epoch" cs
      let ver ← childAttr "version" "ver" cs
      let rel ← childAttr "version" "rel" cs
      pure ⟨pkgid, name, arch, epoch, ver, rel, fileTexts cs⟩
  | _ => none

/-- Modelled from the spec: decode `filelists.xml` into its record sequence. -/
def parseFilelists : Xml → Option (List FilelistsRecord)
  | .elem "filelists" _ cs => optionMapM parsePkgFilelists cs
  | _ => none

/-- The fields of one `other.xml` package record (changelogs). -/
structure OtherRecord where
  pkgid : String
  name : String
  arch : String
  epoch : String
  ver : String
  rel : String
  changelogs : List Changelog
deriving DecidableEq

/-- The other.xml view of a Package's data. -/
def otherRecordOf (p : Package) : OtherRecord :=
  ⟨p.checksum, p.name, p.arch, p.epoch, p.ver, p.rel, p.changelogs⟩

/-- Every decodable `changelog` child element, other elements skipped. -/
def changelogEntries (cs : List Xml) : List Changelog :=
  cs.filterMap (fun c => match c with
    | .elem "changelog" attrs [.text s] => do
        let a ← attrOf "author" attrs
        let d ← attrOf "date" attrs
        pure ⟨a, d, s⟩
    | _ => none)

/-- Modelled from the spec: decode one `other.xml` package record. -/
def parsePkgOther : Xml → Option OtherRecord
  | .elem "package" attrs cs => do
      let pkgid ← attrOf "pkgid" attrs
      let name ← attrOf "name" attrs
      let arch ← attrOf "arch" attrs
      let epoch ← childAttr "version" "epoch" cs
      let ver ← childAttr "version" "ver" cs
      let rel ← childAttr "version" "rel" cs
      pure ⟨pkgid, name, arch, epoch, ver, rel, changelogEntries cs⟩
  | _ => none

/-- Modelled from the spec: decode `other.xml` into its record sequence. -/
def parseOther : Xml → Option (List OtherRecord)
  | .elem "otherdata" _ cs => optionMapM parsePkgOther cs
  | _ => none

/-- Modelled from the spec: decode one advisory reference. -/
def parseRef : Xml → Option AdvisoryRef
  | .elem "reference" attrs _ => do
      let href ← attrOf "href" attrs
      let i ← attrOf "id" attrs
      let t ← attrOf "type" attrs
      let ti ← attrOf "title" attrs
      pure ⟨href, i, t, ti⟩
  | _ => none

/-- Modelled from the spec: decode one pkglist package of an advisory; the
`sum` checksum tag is optional and its absence is tolerated (spec §4.1). -/
def parseAdvisoryPkg : Xml → Option AdvisoryPkg
  | .elem "package" attrs cs => do
      let name ← attrOf "name" attrs
      let epoch ← attrOf "epoch" attrs
      let ver ← attrOf "version" attrs
      let rel ← attrOf "release" attrs
      let arch ← attrOf "arch" attrs
      let fname ← childText "filename" cs
      let sum ← match findChild "sum" cs with
        | some (.elem _ sattrs [.text v]) => do
            let t ← attrOf "type" sattrs
            pure (some (t, v))
        | some _ => none
        | none => pure none
      pure ⟨name, epoch, ver, rel, arch, fname, sum⟩
  | _ => none

/-- Modelled from the spec: decode one `update` element of `updateinfo.xml`. -/
def parseAdvisory : Xml → Option Advisory
  | .elem "update" _ cs => do
      let i ← childText "id" cs
      let title ← childText "title" cs
      let updated ← childAttr "updated" "date" cs
      let descr ← childText "description" cs
      let refs ← match findChild "references" cs with
        | some (.elem _ _ rcs) => optionMapM parseRef rcs
        | _ => none
      let pkgs ← match findChild "pkglist" cs with
        | some (.elem _ _ pcs) =>
            match findChild "collection" pcs with
            | some (.elem _ _ ccs) => optionMapM parseAdvisoryPkg ccs
            | _ => none
        | _ => none
      pure ⟨i, updated, title, descr, refs, pkgs⟩
  | _ => none

/-- Modelled from the spec: decode `updateinfo.xml` into its advisories. -/
def parseUpdateinfo : Xml → Option (List Advisory)
  | .elem "updates" _ cs => optionMapM parseAdvisory cs
  | _ => none

/-! ## Platform data model: repositories, versions, global storage (spec §3, §6) -/

/-- Modelled from the spec: a Repository — a named mutable pointer to a
sequence of immutable RepositoryVersions (content sets of natural keys),
holding configuration including the optional signing-service reference
(spec §3); the `metadataSigningService` field and its nullability are
translated from migration 0004 (`null=True`). -/
structure Repository where
  name : String
  description : String
  retainPackageVersions : Nat
  metadataSigningService : Option Nat
  versions : List (Finset NKey)
deriving DecidableEq

/-- Modelled from the spec: a Publication, an immutable artifact set bound
1:1 to the (repository id, version number) it was derived from (spec §3). -/
structure Publication where
  repositoryVersion : Nat × Nat
  files : List (String × String)
deriving DecidableEq

/-- Modelled from the spec: the process-wide platform state — globally
deduplicated content storage, repositories, publications and signing
services (spec §3, §9). -/
structure PState where
  storage : List ContentUnit
  repos : List Repository
  publications : List Publication
  signingServices : List Nat
deriving DecidableEq

/-- The latest version's content set of a repository. -/
def latestContent (r : Repository) : Option (Finset NKey) := r.versions.getLast?

/-- The natural keys of all globally stored content units. -/
def storageKeys (st : PState) : List NKey := st.storage.map naturalKey

/-- The latest version's content set of repository `rid`. -/
def latestOf (st : PState) (rid : Nat) : Option (Finset NKey) :=
  match st.repos[rid]? with
  | some r => latestContent r
  | none => none

/-! ## Sync Pipeline (spec §4.2, §4.3) -/

/-- Modelled from the spec: mirror vs additive sync policy (spec §4.3). -/
inductive SyncMode where
  | mirror
  | additive
deriving DecidableEq

/-- Modelled from the spec: the error taxonomy of a sync (spec §7). -/
inductive SyncError where
  | remoteIntegrity (location : String)
  | metadataParse (file line : String)
  | syncValidation (key : String)
  | missingRepository (rid : Nat)
deriving DecidableEq

/-- The terminal phase of the sync state machine (spec §4.3). -/
inductive SyncOutcome where
  | done
  | failed (e : SyncError)
deriving DecidableEq

/-- Modelled from the spec: one `data` entry of the upstream `repomd.xml`:
file type, location and declared checksum (spec §4.3, §6). -/
structure RepomdEntry where
  fileType : String
  location : String
  declaredChecksum : String
deriving DecidableEq

/-- Modelled from the spec: an upstream feed — the metadata files its
`repomd.xml` references, and the content fetched per location (spec §6). -/
structure Upstream where
  entries : List RepomdEntry
  fetch : String → String

/-- Modelled from the spec: the Fetching stage — retrieve every metadata file
`repomd.xml` references, verifying each file's checksum against the declared
value before trusting it; a mismatch is fatal, `RemoteIntegrityError`
(spec §4.3). -/
def fetchFiles (f : String → String) : List RepomdEntry → Except SyncError (List (String × String))
  | [] => .ok []
  | e :: es =>
      let c := f e.location
      if checksum c = e.declaredChecksum then
        match fetchFiles f es with
        | .ok rest => .ok ((e.fileType, c) :: rest)
        | .error err => .error err
      else .error (.remoteIntegrity e.location)

/-- The sequence of locations the Fetching stage requests, in order: each
entry is fetched once and fetching stops at the first integrity failure —
a mismatching fetch is never silently retried (spec §4.3, §7). -/
def fetchTrace (f : String → String) : List RepomdEntry → List String
  | [] => []
  | e :: es =>
      if checksum (f e.location) = e.declaredChecksum
      then e.location :: fetchTrace f es
      else [e.location]

/-- Split a character list at a separator. -/
def splitOnChar (sep : Char) : List Char → List (List Char)
  | [] => [[]]
  | c :: cs =>
      match splitOnChar sep cs with
      | [] => [[]]
      | r :: rs => if c = sep then [] :: r :: rs else (c :: r) :: rs

/-- Split a string into fields at a separator character. -/
def splitFields (sep : Char) (s : String) : List String :=
  (splitOnChar sep s.data).map String.mk

/-- Modelled from the spec: decode one line of a fetched metadata file into a
content unit record; a malformed line raises a `MetadataParseError` naming the
file and the offending element (spec §4.1). -/
def decodeLine (file line : String) : Except SyncError ContentUnit :=
  match splitFields '|' line with
  | ["pkg", n, e, v, r, a, ct, cs] =>
      .ok (.package ⟨n, e, v, r, a, ct, cs, n ++ "-" ++ v ++ "." ++ a ++ ".rpm",
        "0", "0", "0", [], []⟩)
  | ["adv", i, upd] => .ok (.advisory ⟨i, upd, "", "", [], []⟩)
  | ["grp", i, nm] => .ok (.group ⟨i, nm, "", []⟩)
  | ["mod", n, s, v, c, a] => .ok (.modulemd ⟨n, s, v, c, a⟩)
  | _ => .error (.metadataParse file line)

/-- The newline character separating records of a fetched metadata file. -/
def newlineChar : Char := Char.ofNat 10

/-- Fallible traversal propagating the first stage error (spec §4.1: the
pipeline surfaces parse failures as sync failures, not dropped units). -/
def exceptMapM (f : α → Except ε β) : List α → Except ε (List β)
  | [] => .ok []
  | a :: as =>
      match f a, exceptMapM f as with
      | .ok b, .ok bs => .ok (b :: bs)
      | .error e, _ => .error e
      | .ok _, .error e => .error e

/-- Modelled from the spec: the Parsing stage, per fetched file. -/
def parseFetched (files : List (String × String)) : Except SyncError (List ContentUnit) :=
  (exceptMapM
    (fun fc => exceptMapM (decodeLine fc.1) ((splitFields newlineChar fc.2).filter (fun l => l ≠ "")))
    files).map List.flatten

/-- Whether a record carries the download checksum packages require
(spec §4.2). -/
def hasChecksum : ContentUnit → Bool
  | .package p => p.checksum != ""
  | _ => true

/-- Modelled from the spec: the Content Reconciler —
`reconcile(existing_keys, upstream_records) → (to_create, to_associate)`: a
record whose natural key matches an existing globally-known unit is marked for
association only, otherwise for creation; a package missing its checksum is a
fatal `SyncValidationError` under the strict policy and is skipped under the
lenient one (spec §4.2). -/
def reconcile (known : List NKey) (strict : Bool) :
    List ContentUnit → Except SyncError (List ContentUnit × List ContentUnit)
  | [] => .ok ([], [])
  | u :: us =>
      if hasChecksum u then
        match reconcile known strict us with
        | .error e => .error e
        | .ok (cr, asc) =>
            if naturalKey u ∈ known then .ok (cr, u :: asc) else .ok (u :: cr, asc)
      else
        if strict then .error (.syncValidation (naturalKey u).2)
        else reconcile known strict us

/-- Modelled from the spec: atomic create-if-absent keyed by natural key
(spec §5; §6: `create_content_unit` is idempotent on natural key). -/
def createIfAbsent (storage : List ContentUnit) (u : ContentUnit) : List ContentUnit :=
  if naturalKey u ∈ storage.map naturalKey then storage else storage ++ [u]

/-- Store a batch of new units through create-if-absent. -/
def addAll (storage : List ContentUnit) (l : List ContentUnit) : List ContentUnit :=
  l.foldl createIfAbsent storage

/-- Replace the repository at one index, leaving every other untouched. -/
def updateRepo : List Repository → Nat → (Repository → Repository) → List Repository
  | [], _, _ => []
  | r :: rs, 0, f => f r :: rs
  | r :: rs, n + 1, f => r :: updateRepo rs n f

/-- Append the next immutable RepositoryVersion to a repository (spec §3). -/
def appendVersion (c : Finset NKey) (r : Repository) : Repository :=
  { r with versions := r.versions ++ [c] }

/-- Modelled from the spec: the Committing stage — in mirror mode the new
version's content is exactly the reconciled upstream set (units absent
upstream are dropped from the new version, not deleted from storage); in
additive mode it is the previous version's content ∪ the reconciled upstream
set; units to create are stored via create-if-absent (spec §4.3). -/
def commitVersion (st : PState) (rid : Nat) (mode : SyncMode)
    (cr asc : List ContentUnit) : PState :=
  let upstreamKeys : Finset NKey := ((cr ++ asc).map naturalKey).toFinset
  let prev : Finset NKey := (latestOf st rid).getD ∅
  let newContent : Finset NKey := match mode with
    | .mirror => upstreamKeys
    | .additive => prev ∪ upstreamKeys
  { st with
    storage := addAll st.storage cr
    repos := updateRepo st.repos rid (appendVersion newContent) }

/-- The read stages of a sync: Fetching, then Parsing, then Reconciling
(spec §4.3). -/
def fetchParseReconcile (known : List NKey) (strict : Bool) (up : Upstream) :
    Except SyncError (List ContentUnit × List ContentUnit) :=
  match fetchFiles up.fetch up.entries with
  | .error e => .error e
  | .ok files =>
      match parseFetched files with
      | .error e => .error e
      | .ok records => reconcile known strict records

/-- Modelled from the spec: the Sync Pipeline
`Fetching → Parsing → Reconciling → Committing → Done | Failed`; failure at
any stage ends in `failed` with the platform state untouched, and only the
Committing stage writes (spec §4.3). -/
def runSync (st : PState) (rid : Nat) (mode : SyncMode) (strict : Bool)
    (up : Upstream) : SyncOutcome × PState :=
  if rid < st.repos.length then
    match fetchParseReconcile (storageKeys st) strict up with
    | .error e => (.failed e, st)
    | .ok (cr, asc) => (.done, commitVersion st rid mode cr asc)
  else (.failed (.missingRepository rid), st)

/-- The reconciled upstream key set of a sync against a given state, when the
read stages succeed (spec §4.3: "the reconciled upstream set"). -/
def reconciledKeys (st : PState) (strict : Bool) (up : Upstream) : Option (Finset NKey) :=
  match fetchParseReconcile (storageKeys st) strict up with
  | .ok (cr, asc) => some (((cr ++ asc).map naturalKey).toFinset)
  | .error _ => none


/-! ## Publish Pipeline (spec §4.5) -/

/-- The content units of a repository version, resolved from global storage by
natural key (spec §6: `list_content(version_id)`). -/
def contentUnitsOf (st : PState) (rid vnum : Nat) : List ContentUnit :=
  match st.repos[rid]? with
  | some r =>
      match r.versions[vnum]? with
      | some ks => st.storage.filter (fun u => naturalKey u ∈ ks)
      | none => []
  | none => []

/-- Whether (rid, vnum) names an existing repository version. -/
def versionExists (st : PState) (rid vnum : Nat) : Bool :=
  match st.repos[rid]? with
  | some r => decide (vnum < r.versions.length)
  | none => false

/-- An invalid publish target. -/
inductive PubError where
  | invalidVersion
deriving DecidableEq

/-- Modelled from the spec: the Publish Pipeline,
`publish(repository_version) → Publication` — invoke the Metadata Generator on
the version's content set and assemble the files into an immutable Publication
bound to the exact repository version id (spec §4.5). -/
def createPublication (st : PState) (rid vnum : Nat) (cfg : GenConfig) :
    Except PubError (Publication × PState) :=
  if versionExists st rid vnum then
    let pub : Publication :=
      { repositoryVersion := (rid, vnum)
      , files := generate cfg (contentUnitsOf st rid vnum) }
    .ok (pub, { st with publications := st.publications ++ [pub] })
  else .error .invalidVersion

/-- Modelled from the spec and `test_publish.py`: a publish API request may
name a repository (meaning its latest version) and/or an explicit repository
version. -/
structure PublishRequest where
  repository : Option Nat
  repositoryVersion : Option (Nat × Nat)
deriving DecidableEq

/-- The error surface of the publish API. -/
inductive HttpError where
  | badRequest
  | notFound
deriving DecidableEq

/-- The reference of a repository's latest version. -/
def latestVersionRef (st : PState) (rid : Nat) : Option (Nat × Nat) :=
  match st.repos[rid]? with
  | some r => if r.versions.length = 0 then none else some (rid, r.versions.length - 1)
  | none => none

/-- Modelled from the spec and `test_publish.py` step 6: handling a publish
request — naming two distinct repository versions at once (a repository,
implying its latest version, together with a different explicit version) is
rejected as invalid and creates nothing (spec §8). -/
def handlePublishRequest (st : PState) (req : PublishRequest) (cfg : GenConfig) :
    Except HttpError Publication × PState :=
  match req.repository, req.repositoryVersion with
  | some rid, some v =>
      match latestVersionRef st rid with
      | some w =>
          if w = v then
            match createPublication st v.1 v.2 cfg with
            | .ok pst => (.ok pst.1, pst.2)
            | .error _ => (.error .badRequest, st)
          else (.error .badRequest, st)
      | none => (.error .notFound, st)
  | some rid, none =>
      match latestVersionRef st rid with
      | some w =>
          match createPublication st w.1 w.2 cfg with
          | .ok pst => (.ok pst.1, pst.2)
          | .error _ => (.error .badRequest, st)
      | none => (.error .notFound, st)
  | none, some v =>
      match createPublication st v.1 v.2 cfg with
      | .ok pst => (.ok pst.1, pst.2)
      | .error _ => (.error .badRequest, st)
  | none, none => (.error .badRequest, st)

/-! ## Repository creation and signing-service deletion (migration 0004) -/

/-- A new repository; the metadata signing service reference is optional and
may be null at creation (migration 0004: `null=True`). -/
def newRepository (name : String) (mss : Option Nat) : Repository :=
  { name := name, description := "", retainPackageVersions := 0,
    metadataSigningService := mss, versions := [] }

/-- Deleting a signing service: the service row disappears and every
repository referencing it has its `metadata_signing_service` field set to
null — the `on_delete=SET_NULL` behaviour of migration 0004; the repositories
themselves and all their other fields are untouched. -/
def deleteSigningService (st : PState) (sid : Nat) : PState :=
  { st with
    signingServices := st.signingServices.filter (fun s => s ≠ sid),
    repos := st.repos.map (fun r =>
      if r.metadataSigningService = some sid then
        { r with metadataSigningService := none }
      else r) }

/-! ## Concrete fixtures used to instantiate the theorems -/

/-- A fixture package. -/
def fixPkg (nm cs : String) : Package :=
  ⟨nm, "0", "1", "1", "x86", "sha", cs, nm ++ "-1.x86.rpm", "0", "0", "0", [], []⟩

/-- Fixture packages a, b, c. -/
def pkgA : Package := fixPkg "a" "A"

def pkgB : Package := fixPkg "b" "B"

def pkgC : Package := fixPkg "c" "C"

/-- A fixture advisory whose pkglist entry carries a `sum` checksum tag. -/
def advX : Advisory :=
  ⟨"RHSA-1", "2020-01-01", "t", "d", [⟨"http://cve", "CVE-1", "cve", "c"⟩],
    [⟨"a", "0", "1", "1", "x86", "a-1.x86.rpm", some ("sha256", "abc")⟩]⟩

/-- A fixture generator configuration. -/
def fixCfg : GenConfig := ⟨false, "0"⟩

/-- The upstream metadata body offering packages b and c, in the line format
of `decodeLine`. -/
def linesBC : String := "pkg|b|0|1|1|x86|sha|B\npkg|c|0|1|1|x86|sha|C"

/-- An upstream feed offering exactly packages b and c, with a correctly
declared checksum. -/
def upBC : Upstream :=
  { entries := [⟨"primary", "repodata/primary.xml", checksum linesBC⟩]
  , fetch := fun _ => linesBC }

/-- An upstream feed offering package b, with a correctly declared checksum. -/
def upB : Upstream :=
  { entries := [⟨"primary", "repodata/primary.xml", checksum "pkg|b|0|1|1|x86|sha|B"⟩]
  , fetch := fun _ => "pkg|b|0|1|1|x86|sha|B" }

/-- An upstream feed whose declared checksum does not match the fetched
content. -/
def upBad : Upstream :=
  { entries := [⟨"primary", "repodata/primary.xml", "bogus"⟩]
  , fetch := fun _ => linesBC }

/-- A platform state with one repository whose latest version contains
packages a and b, both stored. -/
def stAB : PState :=
  { storage := [.package pkgA, .package pkgB]
  , repos := [{ name := "r", description := "", retainPackageVersions := 0,
                metadataSigningService := none,
                versions := [{naturalKey (.package pkgA), naturalKey (.package pkgB)}] }]
  , publications := []
  , signingServices := [] }

/-- A platform state with two empty repositories and empty storage. -/
def stTwoRepos : PState :=
  { storage := []
  , repos := [newRepository "r1" none, newRepository "r2" none]
  , publications := []
  , signingServices := [] }

/-- A platform state with one repository holding two versions (the second the
latest), as the publish test builds. -/
def stTwoVersions : PState :=
  { storage := [.package pkgA]
  , repos := [{ name := "r", description := "", retainPackageVersions := 0,
                metadataSigningService := none,
                versions := [{naturalKey (.package pkgA)}, ∅] }]
  , publications := []
  , signingServices := [] }

/-- The fixture repository referencing signing service 5. -/
def fixRepoSigned : Repository :=
  { name := "r", description := "d", retainPackageVersions := 2,
    metadataSigningService := some 5, versions := [∅] }

/-- A platform state with one repository referencing signing service 5. -/
def stSigned : PState :=
  { storage := []
  , repos := [fixRepoSigned]
  , publications := []
  , signingServices := [5] }


/-- A publish request naming both a repository and a non-latest explicit
version, as in test_publish.py step 6. -/
def reqBoth : PublishRequest := ⟨some 0, some (0, 0)⟩

/-- A generator configuration with the omit-checksum-tag option enabled. -/
def cfgOmit : GenConfig := ⟨true, "0"⟩

/-- The natural key of fixture package b. -/
def keyB : NKey := naturalKey (.package pkgB)

/-- The state after syncing the first empty repository from `upB`. -/
def stS1 : PState := (runSync stTwoRepos 0 SyncMode.mirror true upB).2

/-- The state after then syncing the second repository from `upB`. -/
def stS2 : PState := (runSync stS1 1 SyncMode.mirror true upB).2


/-! ## Round-trip of parse after generate (claim C2) -/

theorem optionMapM_map {α β γ : Type} {f : α → Option β} {g : γ → α} {h : γ → β}
    (H : ∀ x, f (g x) = some (h x)) :
    ∀ l : List γ, optionMapM f (l.map g) = some (l.map h) := by
  intro l
  induction l with
  | nil => rfl
  | cons x xs ih => simp [optionMapM, H x, ih]

theorem parsePkgPrimary_roundtrip (p : Package) :
    parsePkgPrimary (genPkgPrimary p) = some (primaryRecordOf p) := by
  simp [parsePkgPrimary, genPkgPrimary, childText, childAttr, findChild, elemText,
    attrOf, Xml.tag, primaryRecordOf]

theorem filterMap_cons_append {α β : Type} (f : α → Option β) (a : α) (l : List α) :
    List.filterMap f (a :: l) = List.filterMap f [a] ++ List.filterMap f l := by
  cases h : f a <;> simp [List.filterMap_cons, h]

theorem fileTexts_map (fs : List String) (pre : Xml) (hpre : fileTexts [pre] = []) :
    fileTexts (pre :: fs.map (fun f => Xml.elem "file" [] [.text f])) = fs := by
  have h2 : ∀ l : List String, fileTexts (l.map (fun f => Xml.elem "file" [] [.text f])) = l := by
    intro l
    induction l with
    | nil => rfl
    | cons x xs ih => simpa [fileTexts] using ih
  have h1 : fileTexts (pre :: fs.map (fun f => Xml.elem "file" [] [.text f]))
      = fileTexts [pre] ++ fileTexts (fs.map (fun f => Xml.elem "file" [] [.text f])) :=
    filterMap_cons_append _ pre _
  rw [h1, hpre, h2]
  simp

theorem parsePkgFilelists_roundtrip (p : Package) :
    parsePkgFilelists (genPkgFilelists p) = some (filelistsRecordOf p) := by
  have hfiles : fileTexts
      (Xml.elem "version" [("epoch", p.epoch), ("ver", p.ver), ("rel", p.rel)] []
        :: p.files.map (fun f => Xml.elem "file" [] [.text f])) = p.files :=
    fileTexts_map p.files _ (by simp [fileTexts])
  simp [parsePkgFilelists, genPkgFilelists, childText, childAttr, findChild, elemText,
    attrOf, Xml.tag, filelistsRecordOf, hfiles]

theorem changelogEntries_map (cls : List Changelog) (pre : Xml)
    (hpre : changelogEntries [pre] = []) :
    changelogEntries (pre :: cls.map genChangelog) = cls := by
  have h2 : ∀ l : List Changelog, changelogEntries (l.map genChangelog) = l := by
    intro l
    induction l with
    | nil => rfl
    | cons x xs ih => simpa [changelogEntries, genChangelog, attrOf] using ih
  have h1 : changelogEntries (pre :: cls.map genChangelog)
      = changelogEntries [pre] ++ changelogEntries (cls.map genChangelog) :=
    filterMap_cons_append _ pre _
  rw [h1, hpre, h2]
  simp

theorem parsePkgOther_roundtrip (p : Package) :
    parsePkgOther (genPkgOther p) = some (otherRecordOf p) := by
  have hcl : changelogEntries
      (Xml.elem "version" [("epoch", p.epoch), ("ver", p.ver), ("rel", p.rel)] []
        :: p.changelogs.map genChangelog) = p.changelogs :=
    changelogEntries_map p.changelogs _ (by simp [changelogEntries])
  simp [parsePkgOther, genPkgOther, childText, childAttr, findChild, elemText,
    attrOf, Xml.tag, otherRecordOf, hcl]

theorem parseRef_roundtrip (r : AdvisoryRef) : parseRef (genRef r) = some r := by
  simp [parseRef, genRef, attrOf]

theorem parseAdvisoryPkg_roundtrip (ap : AdvisoryPkg) :
    parseAdvisoryPkg (genAdvisoryPkg false ap) = some ap := by
  obtain ⟨n, e, v, r, a, f, s⟩ := ap
  cases s <;>
    simp [parseAdvisoryPkg, genAdvisoryPkg, childText, childAttr, findChild, elemText,
      attrOf, Xml.tag]

theorem parseAdvisory_roundtrip (a : Advisory) :
    parseAdvisory (genAdvisory false a) = some a := by
  have hrefs : optionMapM parseRef (a.refs.map genRef) = some a.refs := by
    simpa using optionMapM_map parseRef_roundtrip a.refs
  have hpkgs : optionMapM parseAdvisoryPkg (a.pkgs.map (genAdvisoryPkg false)) = some a.pkgs := by
    simpa using optionMapM_map parseAdvisoryPkg_roundtrip a.pkgs
  simp [parseAdvisory, genAdvisory, childText, childAttr, findChild, elemText,
    attrOf, Xml.tag, hrefs, hpkgs]

/-- C2: parse after generate is the identity on all modeled fields: decoding
the generated primary/filelists/other/updateinfo documents of any content set
reconstructs, for every record of every variant, exactly the data of the
original ContentUnits. -/
theorem parse_after_generate_identity :
    (∀ pkgs : List Package,
      parsePrimary (genPrimary pkgs) = some (pkgs.map primaryRecordOf)) ∧
    (∀ pkgs : List Package,
      parseFilelists (genFilelists pkgs) = some (pkgs.map filelistsRecordOf)) ∧
    (∀ pkgs : List Package,
      parseOther (genOther pkgs) = some (pkgs.map otherRecordOf)) ∧
    (∀ advs : List Advisory,
      parseUpdateinfo (genUpdateinfo false advs) = some advs) := by
  refine ⟨fun pkgs => ?_, fun pkgs => ?_, fun pkgs => ?_, fun advs => ?_⟩
  · simpa [parsePrimary, genPrimary] using optionMapM_map parsePkgPrimary_roundtrip pkgs
  · simpa [parseFilelists, genFilelists] using optionMapM_map parsePkgFilelists_roundtrip pkgs
  · simpa [parseOther, genOther] using optionMapM_map parsePkgOther_roundtrip pkgs
  · simpa [parseUpdateinfo, genUpdateinfo] using optionMapM_map parseAdvisory_roundtrip advs

/-! ## Determinism of the generator (claim C1) -/

/-- Sorting by a string key is a function of the multiset: two enumerations of
the same content set with pairwise-distinct keys sort to the same list. -/
theorem sortBy_eq_of_perm {α : Type} (key : α → String) {l₁ l₂ : List α}
    (hp : l₁.Perm l₂) (hn : (l₁.map key).Nodup) :
    sortBy key l₁ = sortBy key l₂ := by
  haveI : IsTotal α (fun a b => key a ≤ key b) := ⟨fun a b => le_total (key a) (key b)⟩
  haveI : IsTrans α (fun a b => key a ≤ key b) := ⟨fun a b c hab hbc => le_trans hab hbc⟩
  haveI : IsAntisymm α (fun a b => key a < key b) :=
    ⟨fun a b h1 h2 => absurd (lt_trans h1 h2) (lt_irrefl _)⟩
  have hp1 : (sortBy key l₁).Perm l₁ := List.perm_insertionSort _ l₁
  have hp2 : (sortBy key l₂).Perm l₂ := List.perm_insertionSort _ l₂
  have hperm : (sortBy key l₁).Perm (sortBy key l₂) := hp1.trans (hp.trans hp2.symm)
  have hs1 : (sortBy key l₁).Sorted (fun a b => key a ≤ key b) :=
    List.sorted_insertionSort _ l₁
  have hs2 : (sortBy key l₂).Sorted (fun a b => key a ≤ key b) :=
    List.sorted_insertionSort _ l₂
  have hn1 : ((sortBy key l₁).map key).Nodup := ((hp1.map key).nodup_iff).mpr hn
  have hn2 : ((sortBy key l₂).map key).Nodup :=
    ((hp2.map key).nodup_iff).mpr (((hp.map key).nodup_iff).mp hn)
  have hne1 : (sortBy key l₁).Pairwise (fun a b => key a ≠ key b) :=
    List.pairwise_map.mp hn1
  have hne2 : (sortBy key l₂).Pairwise (fun a b => key a ≠ key b) :=
    List.pairwise_map.mp hn2
  have hlt1 : (sortBy key l₁).Sorted (fun a b => key a < key b) :=
    hs1.imp₂ (fun _ _ hle hne => lt_of_le_of_ne hle hne) hne1
  have hlt2 : (sortBy key l₂).Sorted (fun a b => key a < key b) :=
    hs2.imp₂ (fun _ _ hle hne => lt_of_le_of_ne hle hne) hne2
  exact List.eq_of_perm_of_sorted hperm hlt1 hlt2

/-- If the natural keys of a content list are pairwise distinct, so are the
per-variant keys of any variant projection consistent with `naturalKey`. -/
theorem nodup_filterMap_key {β : Type} (f : ContentUnit → Option β) (key : β → String)
    (tag : String) (hf : ∀ u b, f u = some b → naturalKey u = (tag, key b)) :
    ∀ l : List ContentUnit, (l.map naturalKey).Nodup → ((l.filterMap f).map key).Nodup := by
  intro l
  induction l with
  | nil => intro; simp
  | cons u t ih =>
      intro hn
      rw [List.map_cons, List.nodup_cons] at hn
      cases h : f u with
      | none => rw [List.filterMap_cons_none h]; exact ih hn.2
      | some b =>
          rw [List.filterMap_cons_some h, List.map_cons, List.nodup_cons]
          refine ⟨?_, ih hn.2⟩
          intro hmem
          rcases List.mem_map.mp hmem with ⟨b', hb'm, hb'k⟩
          rcases List.mem_filterMap.mp hb'm with ⟨u', hu'm, hu'f⟩
          apply hn.1
          have : naturalKey u' = naturalKey u := by
            rw [hf u' b' hu'f, hf u b h, hb'k]
          exact this ▸ List.mem_map_of_mem naturalKey hu'm

theorem naturalKey_asPackage (u : ContentUnit) (p : Package) (h : asPackage u = some p) :
    naturalKey u = ("rpm.package", pkgSortKey p) := by
  cases u <;> simp [asPackage] at h
  simp [naturalKey, h]

theorem naturalKey_asAdvisory (u : ContentUnit) (a : Advisory) (h : asAdvisory u = some a) :
    naturalKey u = ("rpm.advisory", a.id) := by
  cases u <;> simp [asAdvisory] at h
  simp [naturalKey, h]

theorem naturalKey_asGroup (u : ContentUnit) (g : PackageGroup) (h : asGroup u = some g) :
    naturalKey u = ("rpm.packagegroup", g.id) := by
  cases u <;> simp [asGroup] at h
  simp [naturalKey, h]

theorem naturalKey_asModulemd (u : ContentUnit) (m : Modulemd) (h : asModulemd u = some m) :
    naturalKey u = ("rpm.modulemd", mdSortKey m) := by
  cases u <;> simp [asModulemd] at h
  simp [naturalKey, h]

theorem sortedPackages_eq_of_perm {u₁ u₂ : List ContentUnit} (hp : u₁.Perm u₂)
    (hn : (u₁.map naturalKey).Nodup) : sortedPackages u₁ = sortedPackages u₂ :=
  sortBy_eq_of_perm _ (hp.filterMap _)
    (nodup_filterMap_key asPackage pkgSortKey "rpm.package" naturalKey_asPackage u₁ hn)

theorem sortedAdvisories_eq_of_perm {u₁ u₂ : List ContentUnit} (hp : u₁.Perm u₂)
    (hn : (u₁.map naturalKey).Nodup) : sortedAdvisories u₁ = sortedAdvisories u₂ :=
  sortBy_eq_of_perm _ (hp.filterMap _)
    (nodup_filterMap_key asAdvisory Advisory.id "rpm.advisory" naturalKey_asAdvisory u₁ hn)

theorem sortedGroups_eq_of_perm {u₁ u₂ : List ContentUnit} (hp : u₁.Perm u₂)
    (hn : (u₁.map naturalKey).Nodup) : sortedGroups u₁ = sortedGroups u₂ :=
  sortBy_eq_of_perm _ (hp.filterMap _)
    (nodup_filterMap_key asGroup PackageGroup.id "rpm.packagegroup" naturalKey_asGroup u₁ hn)

theorem sortedModules_eq_of_perm {u₁ u₂ : List ContentUnit} (hp : u₁.Perm u₂)
    (hn : (u₁.map naturalKey).Nodup) : sortedModules u₁ = sortedModules u₂ :=
  sortBy_eq_of_perm _ (hp.filterMap _)
    (nodup_filterMap_key asModulemd mdSortKey "rpm.modulemd" naturalKey_asModulemd u₁ hn)

/-- C1: the Metadata Generator is a deterministic function of the
RepositoryVersion content set: generating twice from the same unchanged
content set — i.e. from any two enumerations of that set (its units carry
pairwise-distinct natural keys) — produces byte-identical output for every
generated file (primary, filelists, other, updateinfo, comps, modules,
repomd.xml). -/
theorem generate_deterministic (cfg : GenConfig) {u₁ u₂ : List ContentUnit}
    (hp : u₁.Perm u₂) (hn : (u₁.map naturalKey).Nodup) :
    generate cfg u₁ = generate cfg u₂ := by
  simp only [generate, updateinfoXml, sortedPackages_eq_of_perm hp hn,
    sortedAdvisories_eq_of_perm hp hn, sortedGroups_eq_of_perm hp hn,
    sortedModules_eq_of_perm hp hn]

/-! ## Sync pipeline lemmas -/

theorem updateRepo_length (f : Repository → Repository) :
    ∀ (rs : List Repository) (n : Nat), (updateRepo rs n f).length = rs.length := by
  intro rs
  induction rs with
  | nil => intro n; rfl
  | cons r rs ih =>
      intro n
      cases n with
      | zero => rfl
      | succ m => simpa [updateRepo] using ih m

theorem updateRepo_getElem_self (f : Repository → Repository) :
    ∀ (rs : List Repository) (n : Nat), (updateRepo rs n f)[n]? = (rs[n]?).map f := by
  intro rs
  induction rs with
  | nil => intro n; simp [updateRepo]
  | cons r rs ih =>
      intro n
      cases n with
      | zero => simp [updateRepo]
      | succ m => simpa [updateRepo] using ih m

theorem updateRepo_getElem_other (f : Repository → Repository) :
    ∀ (rs : List Repository) (n m : Nat), m ≠ n → (updateRepo rs n f)[m]? = rs[m]? := by
  intro rs
  induction rs with
  | nil => intro n m _; simp [updateRepo]
  | cons r rs ih =>
      intro n m hmn
      cases n with
      | zero =>
          cases m with
          | zero => exact absurd rfl hmn
          | succ k => simp [updateRepo]
      | succ n' =>
          cases m with
          | zero => simp [updateRepo]
          | succ k => simpa [updateRepo] using ih n' k (fun h => hmn (by rw [h]))

theorem latestContent_appendVersion (c : Finset NKey) (r : Repository) :
    latestContent (appendVersion c r) = some c := by
  simp [latestContent, appendVersion]

theorem commitVersion_storage (st : PState) (rid : Nat) (mode : SyncMode)
    (cr asc : List ContentUnit) :
    (commitVersion st rid mode cr asc).storage = addAll st.storage cr := rfl

theorem commitVersion_latest (st : PState) (rid : Nat) (mode : SyncMode)
    (cr asc : List ContentUnit) (hr : rid < st.repos.length) :
    latestOf (commitVersion st rid mode cr asc) rid =
      some (match mode with
        | .mirror => ((cr ++ asc).map naturalKey).toFinset
        | .additive => (latestOf st rid).getD ∅ ∪ ((cr ++ asc).map naturalKey).toFinset) := by
  cases mode <;>
    simp [latestOf, commitVersion, updateRepo_getElem_self, List.getElem?_eq_getElem hr,
      latestContent_appendVersion]

theorem commitVersion_other (st : PState) (rid : Nat) (mode : SyncMode)
    (cr asc : List ContentUnit) (j : Nat) (hj : j ≠ rid) :
    (commitVersion st rid mode cr asc).repos[j]? = st.repos[j]? := by
  unfold commitVersion
  exact updateRepo_getElem_other _ _ _ _ hj

theorem mem_addAll_of_mem {u : ContentUnit} :
    ∀ (l : List ContentUnit) (storage : List ContentUnit),
      u ∈ storage → u ∈ addAll storage l := by
  intro l
  induction l with
  | nil => intro s h; exact h
  | cons x xs ih =>
      intro s h
      have hstep : u ∈ createIfAbsent s x := by
        unfold createIfAbsent
        split
        · exact h
        · exact List.mem_append_left _ h
      exact ih (createIfAbsent s x) hstep

theorem mem_keys_createIfAbsent (storage : List ContentUnit) (x : ContentUnit) (k : NKey) :
    k ∈ (createIfAbsent storage x).map naturalKey ↔
      k ∈ storage.map naturalKey ∨ k = naturalKey x := by
  unfold createIfAbsent
  split
  · next h => exact ⟨Or.inl, fun h' => h'.elim id (fun hk => hk ▸ h)⟩
  · simp [List.map_append]

theorem keys_addAll :
    ∀ (l : List ContentUnit) (storage : List ContentUnit) (k : NKey),
      (k ∈ (addAll storage l).map naturalKey ↔
        k ∈ storage.map naturalKey ∨ k ∈ l.map naturalKey) := by
  intro l
  induction l with
  | nil => intro s k; simp [addAll]
  | cons x xs ih =>
      intro s k
      have hstep : addAll s (x :: xs) = addAll (createIfAbsent s x) xs := rfl
      rw [hstep, ih, mem_keys_createIfAbsent, List.map_cons, List.mem_cons]
      tauto

theorem nodup_keys_createIfAbsent (storage : List ContentUnit) (x : ContentUnit)
    (h : (storage.map naturalKey).Nodup) :
    ((createIfAbsent storage x).map naturalKey).Nodup := by
  unfold createIfAbsent
  split
  · exact h
  · next hmem =>
      rw [List.map_append]
      simp only [List.nodup_append, List.map_cons, List.map_nil]
      exact ⟨h, List.nodup_singleton _, by simpa [List.disjoint_singleton] using hmem⟩

theorem nodup_keys_addAll :
    ∀ (l : List ContentUnit) (storage : List ContentUnit),
      (storage.map naturalKey).Nodup → ((addAll storage l).map naturalKey).Nodup := by
  intro l
  induction l with
  | nil => intro s h; exact h
  | cons x xs ih =>
      intro s h
      exact ih (createIfAbsent s x) (nodup_keys_createIfAbsent s x h)

theorem reconcile_assoc_known (known : List NKey) (strict : Bool) :
    ∀ (records cr asc : List ContentUnit),
      reconcile known strict records = .ok (cr, asc) →
      ∀ u ∈ asc, naturalKey u ∈ known := by
  intro records
  induction records with
  | nil =>
      intro cr asc h u hu
      simp only [reconcile] at h
      injection h with h1
      rw [((Prod.mk.injEq _ _ _ _).mp h1.symm).2] at hu
      cases hu
  | cons x xs ih =>
      intro cr asc h u hu
      simp only [reconcile] at h
      by_cases hcs : hasChecksum x
      · rw [if_pos hcs] at h
        cases hrec : reconcile known strict xs with
        | error e => rw [hrec] at h; cases h
        | ok p =>
            obtain ⟨cr', asc'⟩ := p
            rw [hrec] at h
            dsimp only at h
            by_cases hk : naturalKey x ∈ known
            · rw [if_pos hk] at h
              injection h with h1
              have h2 := (Prod.mk.injEq _ _ _ _).mp h1
              rw [← h2.2] at hu
              rcases List.mem_cons.mp hu with h3 | h3
              · rw [h3]; exact hk
              · exact ih cr' asc' hrec u h3
            · rw [if_neg hk] at h
              injection h with h1
              have h2 := (Prod.mk.injEq _ _ _ _).mp h1
              rw [← h2.2] at hu
              exact ih cr' asc' hrec u hu
      · rw [if_neg hcs] at h
        by_cases hstrict : strict = true
        · rw [if_pos hstrict] at h; cases h
        · rw [if_neg hstrict] at h
          exact ih cr asc h u hu

theorem fetchParseReconcile_ok {known : List NKey} {strict : Bool} {up : Upstream}
    {p : List ContentUnit × List ContentUnit}
    (h : fetchParseReconcile known strict up = .ok p) :
    ∃ records, reconcile known strict records = .ok p := by
  unfold fetchParseReconcile at h
  cases hf : fetchFiles up.fetch up.entries with
  | error e => rw [hf] at h; cases h
  | ok files =>
      rw [hf] at h
      dsimp only at h
      cases hp : parseFetched files with
      | error e => rw [hp] at h; cases h
      | ok records => rw [hp] at h; exact ⟨records, h⟩

theorem runSync_done {st st' : PState} {rid : Nat} {mode : SyncMode} {strict : Bool}
    {up : Upstream} (h : runSync st rid mode strict up = (.done, st')) :
    rid < st.repos.length ∧
      ∃ cr asc, fetchParseReconcile (storageKeys st) strict up = .ok (cr, asc) ∧
        st' = commitVersion st rid mode cr asc := by
  unfold runSync at h
  by_cases hr : rid < st.repos.length
  · rw [if_pos hr] at h
    refine ⟨hr, ?_⟩
    cases hfpr : fetchParseReconcile (storageKeys st) strict up with
    | error e => rw [hfpr] at h; cases h
    | ok p =>
        obtain ⟨cr, asc⟩ := p
        rw [hfpr] at h
        injection h with h1 h2
        exact ⟨cr, asc, rfl, h2.symm⟩
  · rw [if_neg hr] at h
    cases h

/-! ## Fetch-stage lemmas -/

theorem fetchFiles_error_integrity (f : String → String) :
    ∀ (es : List RepomdEntry) (e : SyncError),
      fetchFiles f es = .error e → ∃ loc, e = .remoteIntegrity loc := by
  intro es
  induction es with
  | nil => intro e h; cases h
  | cons x xs ih =>
      intro e h
      simp only [fetchFiles] at h
      by_cases hc : checksum (f x.location) = x.declaredChecksum
      · rw [if_pos hc] at h
        cases hx : fetchFiles f xs with
        | ok rest => rw [hx] at h; cases h
        | error err =>
            rw [hx] at h
            injection h with h1
            exact h1 ▸ ih err hx
  
      · rw [if_neg hc] at h
        injection h with h1
        exact ⟨x.location, h1.symm⟩

theorem fetchFiles_mismatch_error (f : String → String) :
    ∀ es : List RepomdEntry,
      (∃ x ∈ es, checksum (f x.location) ≠ x.declaredChecksum) →
      ∃ e, fetchFiles f es = .error e := by
  intro es
  induction es with
  | nil => rintro ⟨x, hx, _⟩; cases hx
  | cons y ys ih =>
      rintro ⟨x, hx, hne⟩
      by_cases hc : checksum (f y.location) = y.declaredChecksum
      · have hxys : x ∈ ys := by
          rcases List.mem_cons.mp hx with h1 | h1
          · subst h1; exact absurd hc hne
          · exact h1
        rcases ih ⟨x, hxys, hne⟩ with ⟨e, he⟩
        refine ⟨e, ?_⟩
        simp only [fetchFiles]
        rw [if_pos hc, he]
      · exact ⟨.remoteIntegrity y.location, by simp only [fetchFiles]; rw [if_neg hc]⟩

theorem fetchTrace_isPrefix (f : String → String) :
    ∀ es : List RepomdEntry,
      ∃ n, fetchTrace f es = (es.map RepomdEntry.location).take n := by
  intro es
  induction es with
  | nil => exact ⟨0, rfl⟩
  | cons y ys ih =>
      by_cases hc : checksum (f y.location) = y.declaredChecksum
      · rcases ih with ⟨n, hn⟩
        refine ⟨n + 1, ?_⟩
        simp only [fetchTrace, List.map_cons, List.take_succ_cons]
        rw [if_pos hc, hn]
      · refine ⟨1, ?_⟩
        simp only [fetchTrace, List.map_cons, List.take_succ_cons, List.take_zero]
        rw [if_neg hc]

theorem fetchTrace_nodup (f : String → String) (es : List RepomdEntry)
    (h : (es.map RepomdEntry.location).Nodup) : (fetchTrace f es).Nodup := by
  rcases fetchTrace_isPrefix f es with ⟨n, hn⟩
  exact hn ▸ h.sublist (List.take_sublist n _)

/-! ## Claim theorems for the sync pipeline -/

/-- C7: a sync that fails at any pipeline stage ends in the `failed` state and
leaves the platform state — in particular every repository's latest version —
exactly as it was: no RepositoryVersion is partially committed (spec §4.3,
§7). -/
theorem sync_failure_atomic {st st' : PState} {rid : Nat} {mode : SyncMode}
    {strict : Bool} {up : Upstream} {e : SyncError}
    (h : runSync st rid mode strict up = (.failed e, st')) : st' = st := by
  unfold runSync at h
  by_cases hr : rid < st.repos.length
  · rw [if_pos hr] at h
    cases hfpr : fetchParseReconcile (storageKeys st) strict up with
    | error e' =>
        rw [hfpr] at h
        injection h with h1 h2
        exact h2.symm
    | ok p =>
        rw [hfpr] at h
        injection h with h1
        cases h1
  · rw [if_neg hr] at h
    injection h with h1 h2
    exact h2.symm

/-- C6: when some fetched metadata file's checksum does not match the value
declared in `repomd.xml`, the sync fails with `RemoteIntegrityError`, the
repository's latest version is unchanged, and no location is fetched twice
(the mismatching fetch is not retried) (spec §4.3, §7, §8). -/
theorem sync_checksum_mismatch {st : PState} {rid : Nat} {mode : SyncMode}
    {strict : Bool} {up : Upstream}
    (hr : rid < st.repos.length)
    (hmis : ∃ x ∈ up.entries, checksum (up.fetch x.location) ≠ x.declaredChecksum)
    (hnd : (up.entries.map RepomdEntry.location).Nodup) :
    (∃ loc, runSync st rid mode strict up = (.failed (.remoteIntegrity loc), st)) ∧
      (fetchTrace up.fetch up.entries).Nodup ∧
      latestOf (runSync st rid mode strict up).2 rid = latestOf st rid := by
  rcases fetchFiles_mismatch_error up.fetch up.entries hmis with ⟨e, he⟩
  rcases fetchFiles_error_integrity up.fetch up.entries e he with ⟨loc, hloc⟩
  have hrun : runSync st rid mode strict up = (.failed (.remoteIntegrity loc), st) := by
    unfold runSync
    rw [if_pos hr]
    have hfpr : fetchParseReconcile (storageKeys st) strict up = .error (.remoteIntegrity loc) := by
      unfold fetchParseReconcile
      rw [he, hloc]
    rw [hfpr]
  refine ⟨⟨loc, hrun⟩, fetchTrace_nodup up.fetch up.entries hnd, ?_⟩
  rw [hrun]

/-- C3: a successful sync commits exactly one new latest version whose content
is, in mirror mode, exactly the reconciled upstream set (units absent upstream
are dropped from the new version), and, in additive mode, the previous
latest content united with the reconciled upstream set; in both modes no unit
is deleted from storage (spec §4.3, §8). -/
theorem sync_mirror_additive {st st' : PState} {rid : Nat} {mode : SyncMode}
    {strict : Bool} {up : Upstream}
    (h : runSync st rid mode strict up = (.done, st')) :
    ∃ U, reconciledKeys st strict up = some U ∧
      latestOf st' rid = some (match mode with
        | .mirror => U
        | .additive => (latestOf st rid).getD ∅ ∪ U) ∧
      ∀ u ∈ st.storage, u ∈ st'.storage := by
  obtain ⟨hr, cr, asc, hfpr, hst⟩ := runSync_done h
  refine ⟨((cr ++ asc).map naturalKey).toFinset, ?_, ?_, ?_⟩
  · unfold reconciledKeys
    rw [hfpr]
  · subst hst
    have hcl := commitVersion_latest st rid mode cr asc hr
    cases mode
    · simpa using hcl
    · simpa using hcl
  · intro u hu
    rw [hst, commitVersion_storage]
    exact mem_addAll_of_mem cr st.storage hu


/-- In a storage list with pairwise-distinct natural keys, a present key is
held by exactly one unit. -/
theorem length_filter_key_eq_one :
    ∀ (l : List ContentUnit) (k : NKey),
      (l.map naturalKey).Nodup → k ∈ l.map naturalKey →
      (l.filter (fun u => naturalKey u = k)).length = 1 := by
  intro l
  induction l with
  | nil => intro k _ hk; cases hk
  | cons x xs ih =>
      intro k hnd hk
      rw [List.map_cons, List.nodup_cons] at hnd
      by_cases hx : naturalKey x = k
      · rw [List.filter_cons_of_pos (by simpa using hx)]
        have hnil : xs.filter (fun u => naturalKey u = k) = [] := by
          rw [List.filter_eq_nil_iff]
          intro u hu hku
          rw [decide_eq_true_eq] at hku
          exact hnd.1 (by rw [hx]; exact hku ▸ List.mem_map_of_mem naturalKey hu)
        simp [hnil]
      · rw [List.filter_cons_of_neg (by simpa using hx)]
        apply ih k hnd.2
        rcases List.mem_cons.mp hk with h1 | h1
        · exact absurd h1.symm hx
        · exact h1

/-- C8: two successful syncs of distinct repositories whose feeds share a
unit with natural key `k` store exactly one ContentUnit for `k`, referenced by
both repositories' new latest versions; global storage never holds two units
with the same natural key (spec §3 invariants, §8). -/
theorem sync_dedup {st st₁ st₂ : PState} {i j : Nat} {m₁ m₂ : SyncMode} {s₁ s₂ : Bool}
    {up₁ up₂ : Upstream} {k : NKey} {U₁ U₂ : Finset NKey}
    (hnd : (st.storage.map naturalKey).Nodup)
    (hij : i ≠ j)
    (h₁ : runSync st i m₁ s₁ up₁ = (.done, st₁))
    (h₂ : runSync st₁ j m₂ s₂ up₂ = (.done, st₂))
    (hU₁ : reconciledKeys st s₁ up₁ = some U₁) (hk₁ : k ∈ U₁)
    (hU₂ : reconciledKeys st₁ s₂ up₂ = some U₂) (hk₂ : k ∈ U₂) :
    (st₂.storage.filter (fun u => naturalKey u = k)).length = 1 ∧
      (st₂.storage.map naturalKey).Nodup ∧
      (∃ C₁, latestOf st₂ i = some C₁ ∧ k ∈ C₁) ∧
      (∃ C₂, latestOf st₂ j = some C₂ ∧ k ∈ C₂) := by
  obtain ⟨hi, cr₁, asc₁, hfpr₁, hst₁⟩ := runSync_done h₁
  obtain ⟨hj, cr₂, asc₂, hfpr₂, hst₂⟩ := runSync_done h₂
  have hU₁eq : U₁ = ((cr₁ ++ asc₁).map naturalKey).toFinset := by
    unfold reconciledKeys at hU₁
    rw [hfpr₁] at hU₁
    injection hU₁ with h'
    exact h'.symm
  have hU₂eq : U₂ = ((cr₂ ++ asc₂).map naturalKey).toFinset := by
    unfold reconciledKeys at hU₂
    rw [hfpr₂] at hU₂
    injection hU₂ with h'
    exact h'.symm
  have hk₁m : k ∈ (cr₁ ++ asc₁).map naturalKey :=
    List.mem_toFinset.mp (hU₁eq ▸ hk₁)
  have hk₂m : k ∈ (cr₂ ++ asc₂).map naturalKey :=
    List.mem_toFinset.mp (hU₂eq ▸ hk₂)
  have hsto₁ : st₁.storage = addAll st.storage cr₁ := by
    rw [hst₁, commitVersion_storage]
  have hsto₂ : st₂.storage = addAll st₁.storage cr₂ := by
    rw [hst₂, commitVersion_storage]
  have hkst₁ : k ∈ st₁.storage.map naturalKey := by
    rw [hsto₁, keys_addAll]
    rw [List.map_append, List.mem_append] at hk₁m
    rcases hk₁m with hcase | hcase
    · exact Or.inr hcase
    · rcases List.mem_map.mp hcase with ⟨u, hum, huk⟩
      obtain ⟨records₁, hrec₁⟩ := fetchParseReconcile_ok hfpr₁
      have := reconcile_assoc_known (storageKeys st) s₁ records₁ cr₁ asc₁ hrec₁ u hum
      exact Or.inl (huk ▸ this)
  have hnd₁ : (st₁.storage.map naturalKey).Nodup := by
    rw [hsto₁]
    exact nodup_keys_addAll cr₁ st.storage hnd
  have hkst₂ : k ∈ st₂.storage.map naturalKey := by
    rw [hsto₂, keys_addAll]
    exact Or.inl hkst₁
  have hnd₂ : (st₂.storage.map naturalKey).Nodup := by
    rw [hsto₂]
    exact nodup_keys_addAll cr₂ st₁.storage hnd₁
  refine ⟨length_filter_key_eq_one st₂.storage k hnd₂ hkst₂, hnd₂, ?_, ?_⟩
  · have hframe : latestOf st₂ i = latestOf st₁ i := by
      unfold latestOf
      rw [hst₂, commitVersion_other st₁ j m₂ cr₂ asc₂ i hij]
    have hcl := commitVersion_latest st i m₁ cr₁ asc₁ hi
    rw [← hst₁] at hcl
    rw [hframe, hcl]
    cases m₁
    · exact ⟨_, rfl, by simpa using List.mem_toFinset.mpr hk₁m⟩
    · exact ⟨_, rfl, by simpa using Or.inr (List.mem_toFinset.mpr hk₁m)⟩
  · have hcl := commitVersion_latest st₁ j m₂ cr₂ asc₂ hj
    rw [← hst₂] at hcl
    rw [hcl]
    cases m₂
    · exact ⟨_, rfl, by simpa using List.mem_toFinset.mpr hk₂m⟩
    · exact ⟨_, rfl, by simpa using Or.inr (List.mem_toFinset.mpr hk₂m)⟩

/-! ## Claim theorems for the publish pipeline -/

/-- C4: a successful publish of any existing repository version V — latest or
not — returns a Publication whose `repository_version` is exactly V, appended
once to the publication set at creation (spec §4.5, §8;
test_publish.py steps 2–5). -/
theorem publish_binds_version {st : PState} {rid vnum : Nat} {cfg : GenConfig}
    (h : versionExists st rid vnum = true) :
    ∃ pub st', createPublication st rid vnum cfg = .ok (pub, st') ∧
      pub.repositoryVersion = (rid, vnum) ∧
      st'.publications = st.publications ++ [pub] ∧
      st'.repos = st.repos := by
  unfold createPublication
  rw [if_pos h]
  exact ⟨_, _, rfl, rfl, rfl, rfl⟩

/-- C5: a publish request naming two distinct repository versions at once —
a repository, implying its latest version `w`, together with a different
explicit version `v` — is rejected as invalid and the platform state is left
unchanged: no Publication is created (spec §8; test_publish.py step 6). -/
theorem publish_two_versions_rejected {st : PState} {req : PublishRequest}
    {cfg : GenConfig} {rid : Nat} {v w : Nat × Nat}
    (h1 : req.repository = some rid) (h2 : req.repositoryVersion = some v)
    (h3 : latestVersionRef st rid = some w) (h4 : w ≠ v) :
    handlePublishRequest st req cfg = (.error .badRequest, st) := by
  obtain ⟨ro, vo⟩ := req
  simp only at h1 h2
  subst h1
  subst h2
  unfold handlePublishRequest
  dsimp only
  rw [h3]
  dsimp only
  rw [if_neg h4]

/-! ## Claim theorems for the omitted checksum tag (claim C9) -/

theorem no_sum_tag_list {α : Type} (g : α → Xml)
    (hg : ∀ x, "sum" ∉ allTags (g x)) :
    ∀ l : List α, "sum" ∉ allTagsList (l.map g) := by
  intro l
  induction l with
  | nil => simp [allTagsList]
  | cons x xs ih =>
      simp only [List.map_cons, allTagsList, List.mem_append]
      rintro (h | h)
      · exact hg x h
      · exact ih h

theorem no_sum_tag_advisoryPkg (ap : AdvisoryPkg) :
    "sum" ∉ allTags (genAdvisoryPkg true ap) := by
  simp [genAdvisoryPkg, allTags, allTagsList]

theorem no_sum_tag_advisory (a : Advisory) :
    "sum" ∉ allTags (genAdvisory true a) := by
  have hrefs : "sum" ∉ allTagsList (a.refs.map genRef) :=
    no_sum_tag_list genRef (fun r => by simp [genRef, allTags, allTagsList]) a.refs
  have hpkgs : "sum" ∉ allTagsList (a.pkgs.map (genAdvisoryPkg true)) :=
    no_sum_tag_list (genAdvisoryPkg true) no_sum_tag_advisoryPkg a.pkgs
  simp [genAdvisory, allTags, allTagsList, List.mem_append, List.mem_cons, hrefs, hpkgs]

/-- C9: with the omit-checksum-tag option enabled, the generated
`updateinfo.xml` of any content set contains no `sum` element anywhere in the
document, over the set of all element tags of the output (spec §8, §4.4;
test_publish.py ValidateNoChecksumTagTestCase). -/
theorem updateinfo_no_sum_tag (cfg : GenConfig) (units : List ContentUnit)
    (h : cfg.omitSumTag = true) :
    "sum" ∉ allTags (updateinfoXml cfg units) := by
  unfold updateinfoXml genUpdateinfo
  rw [h]
  simp only [allTags, List.mem_cons]
  rintro (hc | hc)
  · exact absurd hc (by decide)
  · exact no_sum_tag_list (genAdvisory true) no_sum_tag_advisory (sortedAdvisories units) hc

/-! ## Claim theorem for the signing-service foreign key (claim C10) -/

/-- C10: the metadata signing service reference of a repository is optional
(may be null at creation), and deleting the referenced signing service sets
`metadata_signing_service` to null on every repository that referenced it,
while the repositories themselves survive with every other field unchanged
(migration 0004: `null=True`, `on_delete=SET_NULL`). -/
theorem signing_service_delete_sets_null (st : PState) (sid : Nat) (i : Nat)
    (r : Repository) (h : st.repos[i]? = some r) :
    (∀ n : String, (newRepository n none).metadataSigningService = none) ∧
      (deleteSigningService st sid).repos.length = st.repos.length ∧
      ∃ r', (deleteSigningService st sid).repos[i]? = some r' ∧
        r'.name = r.name ∧
        r'.description = r.description ∧
        r'.retainPackageVersions = r.retainPackageVersions ∧
        r'.versions = r.versions ∧
        r'.metadataSigningService =
          (if r.metadataSigningService = some sid then none
           else r.metadataSigningService) := by
  refine ⟨fun n => rfl, by simp [deleteSigningService], ?_⟩
  refine ⟨if r.metadataSigningService = some sid then
      { r with metadataSigningService := none } else r, ?_, ?_, ?_, ?_, ?_, ?_⟩
  · simp only [deleteSigningService, List.getElem?_map, h, Option.map_some']
  · by_cases hc : r.metadataSigningService = some sid
    · rw [if_pos hc]
    · rw [if_neg hc]
  · by_cases hc : r.metadataSigningService = some sid
    · rw [if_pos hc]
    · rw [if_neg hc]
  · by_cases hc : r.metadataSigningService = some sid
    · rw [if_pos hc]
    · rw [if_neg hc]
  · by_cases hc : r.metadataSigningService = some sid
    · rw [if_pos hc]
    · rw [if_neg hc]
  · by_cases hc : r.metadataSigningService = some sid
    · rw [if_pos hc, if_pos hc]
    · rw [if_neg hc, if_neg hc]

/-! ## Concrete witnesses of the claim theorems -/

theorem generate_deterministic_witness :
    ([ContentUnit.package pkgA, ContentUnit.advisory advX].Perm
        [ContentUnit.advisory advX, ContentUnit.package pkgA]) ∧
      (([ContentUnit.package pkgA, ContentUnit.advisory advX].map naturalKey).Nodup) ∧
      generate fixCfg [ContentUnit.package pkgA, ContentUnit.advisory advX] =
        generate fixCfg [ContentUnit.advisory advX, ContentUnit.package pkgA] :=
  ⟨List.Perm.swap (ContentUnit.advisory advX) (ContentUnit.package pkgA) [],
    by decide,
    generate_deterministic fixCfg
      (List.Perm.swap (ContentUnit.advisory advX) (ContentUnit.package pkgA) [])
      (by decide)⟩

theorem sync_mirror_additive_witness :
    ∃ U, reconciledKeys stAB true upBC = some U ∧
      latestOf (runSync stAB 0 SyncMode.mirror true upBC).2 0 =
        some (match SyncMode.mirror with
          | SyncMode.mirror => U
          | SyncMode.additive => (latestOf stAB 0).getD ∅ ∪ U) ∧
      ∀ u ∈ stAB.storage, u ∈ (runSync stAB 0 SyncMode.mirror true upBC).2.storage :=
  sync_mirror_additive
    (show runSync stAB 0 SyncMode.mirror true upBC =
        (SyncOutcome.done, (runSync stAB 0 SyncMode.mirror true upBC).2) from rfl)

theorem publish_binds_version_witness :
    versionExists stTwoVersions 0 0 = true ∧
      ∃ pub st', createPublication stTwoVersions 0 0 fixCfg = .ok (pub, st') ∧
        pub.repositoryVersion = (0, 0) ∧
        st'.publications = stTwoVersions.publications ++ [pub] ∧
        st'.repos = stTwoVersions.repos :=
  ⟨rfl, publish_binds_version rfl⟩

theorem publish_two_versions_rejected_witness :
    (reqBoth.repository = some 0 ∧ reqBoth.repositoryVersion = some (0, 0) ∧
      latestVersionRef stTwoVersions 0 = some (0, 1) ∧ ((0, 1) : Nat × Nat) ≠ (0, 0)) ∧
      handlePublishRequest stTwoVersions reqBoth fixCfg = (.error .badRequest, stTwoVersions) :=
  ⟨⟨rfl, rfl, rfl, by decide⟩,
    publish_two_versions_rejected rfl rfl rfl (by decide)⟩

theorem sync_checksum_mismatch_witness :
    ((0 < stAB.repos.length) ∧
      (∃ x ∈ upBad.entries, checksum (upBad.fetch x.location) ≠ x.declaredChecksum) ∧
      (upBad.entries.map RepomdEntry.location).Nodup) ∧
      ((∃ loc, runSync stAB 0 SyncMode.mirror true upBad =
          (.failed (.remoteIntegrity loc), stAB)) ∧
        (fetchTrace upBad.fetch upBad.entries).Nodup ∧
        latestOf (runSync stAB 0 SyncMode.mirror true upBad).2 0 = latestOf stAB 0) :=
  ⟨⟨by decide, by decide, by decide⟩,
    sync_checksum_mismatch (by decide) (by decide) (by decide)⟩

theorem sync_failure_atomic_witness :
    runSync stAB 0 SyncMode.mirror true upBad =
        (.failed (.remoteIntegrity "repodata/primary.xml"),
          (runSync stAB 0 SyncMode.mirror true upBad).2) ∧
      (runSync stAB 0 SyncMode.mirror true upBad).2 = stAB :=
  ⟨rfl, sync_failure_atomic
    (show runSync stAB 0 SyncMode.mirror true upBad =
        (SyncOutcome.failed (.remoteIntegrity "repodata/primary.xml"),
          (runSync stAB 0 SyncMode.mirror true upBad).2) from rfl)⟩

theorem sync_dedup_witness :
    (runSync stTwoRepos 0 SyncMode.mirror true upB = (.done, stS1) ∧
      runSync stS1 1 SyncMode.mirror true upB = (.done, stS2) ∧
      reconciledKeys stTwoRepos true upB = some {keyB} ∧
      reconciledKeys stS1 true upB = some {keyB}) ∧
      ((stS2.storage.filter (fun u => naturalKey u = keyB)).length = 1 ∧
        (stS2.storage.map naturalKey).Nodup ∧
        (∃ C₁, latestOf stS2 0 = some C₁ ∧ keyB ∈ C₁) ∧
        (∃ C₂, latestOf stS2 1 = some C₂ ∧ keyB ∈ C₂)) :=
  ⟨⟨rfl, rfl, by decide, by decide⟩,
    @sync_dedup stTwoRepos stS1 stS2 0 1 SyncMode.mirror SyncMode.mirror true true upB upB
      keyB {keyB} {keyB} (by decide) (by decide) rfl rfl
      (by decide) (by decide) (by decide) (by decide)⟩

theorem updateinfo_no_sum_tag_witness :
    cfgOmit.omitSumTag = true ∧
      "sum" ∉ allTags (updateinfoXml cfgOmit [ContentUnit.advisory advX]) :=
  ⟨rfl, updateinfo_no_sum_tag cfgOmit [ContentUnit.advisory advX] rfl⟩

theorem signing_service_delete_witness :
    stSigned.repos[0]? = some fixRepoSigned ∧
      ((∀ n : String, (newRepository n none).metadataSigningService = none) ∧
        (deleteSigningService stSigned 5).repos.length = stSigned.repos.length ∧
        ∃ r', (deleteSigningService stSigned 5).repos[0]? = some r' ∧
          r'.name = fixRepoSigned.name ∧
          r'.description = fixRepoSigned.description ∧
          r'.retainPackageVersions = fixRepoSigned.retainPackageVersions ∧
          r'.versions = fixRepoSigned.versions ∧
          r'.metadataSigningService =
            (if fixRepoSigned.metadataSigningService = some 5 then none
             else fixRepoSigned.metadataSigningService)) :=
  ⟨rfl, signing_service_delete_sets_null stSigned 5 0 fixRepoSigned rfl⟩

end PulpRpm
